import Mathlib

/-
Verification of the minimax_game repository's reference rules engine
(src/tic_tac_toe.rs), game driver (src/game.rs) and terminal-seeking
strategy (src/strategy.rs) against its natural-language specification.

The Rust code is shallowly embedded: the u16 bitboards become Nat masks
(the bitwise operations used never overflow u16, so Nat agrees with u16
on all in-range inputs), in-place mutation becomes explicit state
passing, and the two side-effecting loops (GamePlayer::play and the
recursive TerminalStateStrategy::choose_move) are given fuel so that
they are total Lean functions; the theorems show the fuel bound is
irrelevant where it matters.
-/

/-- Player enum from src/game.rs: exactly two sides, Player::One is the
default (the starting player). -/
inductive Player
  | One
  | Two
deriving DecidableEq, Repr

/-- Piece enum from src/tic_tac_toe.rs; X is the default. Cosmetic only. -/
inductive Piece
  | X
  | O
  | Empty
deriving DecidableEq, Repr

/-- GameResult enum from src/game.rs. -/
inductive GameResult
  | Win (p : Player)
  | Draw
  | Undetermined
deriving DecidableEq, Repr

/-- Move struct from src/tic_tac_toe.rs: a u16 mask, a single 1 bit
denoting the target cell for a well-formed move. -/
structure Move where
  val : Nat
deriving DecidableEq, Repr

/-- BoardState struct from src/tic_tac_toe.rs: two occupancy bitboards,
whose turn it is, and player one's (cosmetic) piece symbol. -/
structure BoardState where
  player1 : Nat
  player2 : Nat
  to_move : Player
  player1_piece : Piece
deriving DecidableEq, Repr

/-- Player::other_player from src/game.rs. -/
def Player.other_player : Player → Player
  | Player.One => Player.Two
  | Player.Two => Player.One

/-- GameResult::is_determined from src/game.rs. -/
def GameResult.is_determined (r : GameResult) : Bool :=
  r != GameResult.Undetermined

/-- WINNING_POSITIONS constant from src/tic_tac_toe.rs: 3 rows, 3
columns, 2 diagonals, in the source order. -/
def WINNING_POSITIONS : List Nat :=
  [0b000000111, 0b000111000, 0b111000000,
   0b001001001, 0b010010010, 0b100100100,
   0b100010001, 0b001010100]

/-- ALL_MOVES constant from src/tic_tac_toe.rs: the nine single-bit
moves, cell 0 through cell 8. -/
def ALL_MOVES : List Move :=
  [⟨1⟩, ⟨2⟩, ⟨4⟩, ⟨8⟩, ⟨16⟩, ⟨32⟩, ⟨64⟩, ⟨128⟩, ⟨256⟩]

/-- DRAW constant from src/tic_tac_toe.rs: all nine board bits. -/
def DRAW : Nat := 0b111111111

/-- BoardState::new from src/tic_tac_toe.rs: the all-default state. -/
def BoardState.new : BoardState :=
  { player1 := 0, player2 := 0, to_move := Player.One, player1_piece := Piece.X }

/-- BoardState::current_player. -/
def BoardState.current_player (s : BoardState) : Player :=
  s.to_move

/-- BoardState::last_player. -/
def BoardState.last_player (s : BoardState) : Player :=
  s.to_move.other_player

/-- BoardState::get_position: the given player's occupancy mask. -/
def BoardState.get_position (s : BoardState) (player : Player) : Nat :=
  if player = Player.One then s.player1 else s.player2

/-- Write-back counterpart of get_position_mut from src/tic_tac_toe.rs:
replacing the given player's occupancy mask. -/
def BoardState.set_position (s : BoardState) (player : Player) (pos : Nat) : BoardState :=
  if player = Player.One then { s with player1 := pos } else { s with player2 := pos }

/-- BoardState::current_player_position. -/
def BoardState.current_player_position (s : BoardState) : Nat :=
  s.get_position s.current_player

/-- BoardState::last_player_position. -/
def BoardState.last_player_position (s : BoardState) : Nat :=
  s.get_position s.last_player

/-- BoardState::move_is_legal: the move's bit is clear in the union of
the two occupancy masks. -/
def BoardState.move_is_legal (s : BoardState) (move_candidate : Move) : Bool :=
  move_candidate.val &&& (s.player1 ||| s.player2) == 0

/-- BoardState::legal_moves: ALL_MOVES filtered by move_is_legal. -/
def BoardState.legal_moves (s : BoardState) : List Move :=
  ALL_MOVES.filter (fun candidate => s.move_is_legal candidate)

/-- BoardState::apply_move: OR the move's bit into the current player's
mask, then flip whose turn it is. In-place mutation is modelled by
returning the updated state. -/
def BoardState.apply_move (s : BoardState) (mov : Move) : BoardState :=
  let s' := s.set_position s.current_player (s.current_player_position ||| mov.val)
  { s' with to_move := s'.to_move.other_player }

/-- BoardState::next_state: clone, apply the move to the clone, return
the clone. -/
def BoardState.next_state (s : BoardState) (mov : Move) : BoardState :=
  s.apply_move mov

/-- BoardState::last_player_is_winner. -/
def BoardState.last_player_is_winner (s : BoardState) : Bool :=
  WINNING_POSITIONS.any (fun pos => pos &&& s.last_player_position == pos)

/-- BoardState::current_player_is_winner. -/
def BoardState.current_player_is_winner (s : BoardState) : Bool :=
  WINNING_POSITIONS.any (fun pos => pos &&& s.current_player_position == pos)

/-- BoardState::is_winner. -/
def BoardState.is_winner (s : BoardState) (player : Player) : Bool :=
  WINNING_POSITIONS.any (fun pos => s.get_position player &&& pos == pos)

/-- BoardState::get_winner. -/
def BoardState.get_winner (s : BoardState) : Option Player :=
  if s.last_player_is_winner then some s.last_player
  else if s.current_player_is_winner then some s.current_player
  else none

/-- BoardState::is_draw: the union of both masks covers all nine cells.
Despite the name this tests only fullness, not absence of a winner. -/
def BoardState.is_draw (s : BoardState) : Bool :=
  (s.player1 ||| s.player2) &&& DRAW == DRAW

/-- GameState::game_result impl for BoardState from src/tic_tac_toe.rs. -/
def BoardState.game_result (s : BoardState) : GameResult :=
  match s.get_winner with
  | some winner => GameResult.Win winner
  | none => if s.is_draw then GameResult.Draw else GameResult.Undetermined

/-- GameState::states_and_moves default method from src/game.rs. -/
def BoardState.states_and_moves (s : BoardState) : List (BoardState × Move) :=
  s.legal_moves.map (fun mov => (s.next_state mov, mov))

/-- Spec-side restatement of the result derivation, following the words
of the specification: Win for the last mover if its mask contains a
winning line, else Win for the current player if its mask contains a
winning line, else Draw if the union of the two masks covers all 9
cells, else Undetermined. -/
def gameResultSpec (s : BoardState) : GameResult :=
  if WINNING_POSITIONS.any (fun w => s.last_player_position &&& w == w) then
    GameResult.Win s.last_player
  else if WINNING_POSITIONS.any (fun w => s.current_player_position &&& w == w) then
    GameResult.Win s.current_player
  else if (s.player1 ||| s.player2) &&& 511 == 511 then
    GameResult.Draw
  else
    GameResult.Undetermined

/-- Spec-side restatement of legal-move enumeration: the single-bit
moves for cells 0 through 8 whose bit is clear in the union of the two
masks, in that order. -/
def legalMovesSpec (s : BoardState) : List Move :=
  (List.range 9).filterMap
    (fun k => if (s.player1 ||| s.player2).testBit k then none else some ⟨2 ^ k⟩)

/-- The spec's engine invariant: the two occupancy masks are disjoint
and both confined to the low 9 bits. -/
def BoardInv (s : BoardState) : Prop :=
  s.player1 &&& s.player2 = 0 ∧ s.player1 < 512 ∧ s.player2 < 512

/-- States reachable from the initial state by repeatedly applying moves
drawn from the state's own legal_moves. -/
inductive Reachable : BoardState → Prop
  | init : Reachable BoardState.new
  | step {s : BoardState} {m : Move} :
      Reachable s → m ∈ s.legal_moves → Reachable (s.apply_move m)

/-- Number of board cells (bits 0 to 8) occupied in a mask. -/
def cellCount (mask : Nat) : Nat :=
  (List.range 9).countP (fun k => mask.testBit k)

/-- Number of free board cells of a state. -/
def freeCells (s : BoardState) : Nat :=
  (List.range 9).countP (fun k => !(s.player1 ||| s.player2).testBit k)

/-- The legal moves whose immediate application wins for the player to
move, in enumeration order. -/
def winningMoves (s : BoardState) : List Move :=
  s.legal_moves.filter
    (fun mov => (s.next_state mov).game_result == GameResult.Win s.current_player)

mutual

/-- TerminalStateStrategy::choose_move from src/strategy.rs, with fuel
to make the recursion total in the embedding. Result none is fuel
exhaustion, some (Except.error ()) is a panic (the todo-macro hard
abort, possibly reached through a recursive call), some (Except.ok r)
is a normal return of r. If the state is determined it returns no move;
otherwise the first loop returns the first immediately winning move; the
second loop recurses into each undetermined child (its bound value is
discarded, matching the empty loop body in the source) and the function
then hits the todo-macro panic. -/
def TerminalStateStrategy.choose_move : Nat → BoardState → Option (Except Unit (Option Move))
  | 0, _ => none
  | fuel + 1, s =>
    if (s.game_result).is_determined then some (Except.ok none)
    else
      match s.states_and_moves.find?
          (fun fm => fm.1.game_result == GameResult.Win s.current_player) with
      | some fm => some (Except.ok (some fm.2))
      | none =>
        match TerminalStateStrategy.loop2 fuel s.states_and_moves with
        | none => none
        | some (Except.error ()) => some (Except.error ())
        | some (Except.ok ()) => some (Except.error ())

/-- The second for-loop of TerminalStateStrategy::choose_move: iterate
over the child states, recursing into each undetermined one; a panic in
a recursive call propagates, otherwise the loop completes. -/
def TerminalStateStrategy.loop2 : Nat → List (BoardState × Move) → Option (Except Unit Unit)
  | _, [] => some (Except.ok ())
  | fuel, fm :: rest =>
    if (fm.1.game_result).is_determined then TerminalStateStrategy.loop2 fuel rest
    else
      match TerminalStateStrategy.choose_move fuel fm.1 with
      | none => none
      | some (Except.error ()) => some (Except.error ())
      | some (Except.ok _) => TerminalStateStrategy.loop2 fuel rest

end

/-- GamePlayer::play from src/game.rs, for the reference BoardState and
an arbitrary strategy (the printing and sleeping side effects are
dropped). The loop is given fuel: some r means play returned r within
that many iterations; none means it was still looping. On Undetermined
it asks the strategy; if a move comes back it applies it, and if none
comes back the state is left unchanged and the loop re-enters. -/
def GamePlayer.play (strategy : BoardState → Option Move) :
    Nat → BoardState → Option GameResult
  | 0, _ => none
  | fuel + 1, s =>
    match s.game_result with
    | GameResult.Undetermined =>
      match strategy s with
      | some move_candidate => GamePlayer.play strategy fuel (s.apply_move move_candidate)
      | none => GamePlayer.play strategy fuel s
    | r => some r

lemma any_and_comm (x : Nat) (l : List Nat) :
    (l.any fun pos => pos &&& x == pos) = (l.any fun w => x &&& w == w) := by
  induction l with
  | nil => rfl
  | cons a l ih => simp only [List.any_cons, ih, Nat.and_comm]

/-- C2: for every BoardState, game_result returns Win(last mover) if the
last mover's mask contains a winning line; else Win(current player) if
the current player's mask contains a winning line; else Draw if the
union of the two masks covers all 9 cells; else Undetermined. -/
theorem game_result_eq_spec (s : BoardState) : s.game_result = gameResultSpec s := by
  unfold BoardState.game_result BoardState.get_winner gameResultSpec
    BoardState.last_player_is_winner BoardState.current_player_is_winner BoardState.is_draw DRAW
  rw [any_and_comm, any_and_comm]
  cases h1 : WINNING_POSITIONS.any fun w => s.last_player_position &&& w == w <;>
    cases h2 : WINNING_POSITIONS.any fun w => s.current_player_position &&& w == w <;>
      simp

/-- C4: the repository's own test test_move expects that applying two
moves in either order from the initial state yields equal BoardStates,
but apply_move sends the two moves to different players' masks depending
on the order, so the resulting states differ (both for the test's
literal Move(0)/Move(1) pair and for the two genuine single-bit moves
for cells 0 and 1). -/
theorem test_move_assertion_fails :
    ((BoardState.new.apply_move ⟨0⟩).apply_move ⟨1⟩
      ≠ (BoardState.new.apply_move ⟨1⟩).apply_move ⟨0⟩)
    ∧ ((BoardState.new.apply_move ⟨1⟩).apply_move ⟨2⟩
      ≠ (BoardState.new.apply_move ⟨2⟩).apply_move ⟨1⟩) := by
  decide

/-- C5: next_state equals copying the state and applying the move to the
copy; in the embedding state passing is explicit, so the original state
is untouched by construction. -/
theorem next_state_eq_copy_apply (s : BoardState) (mov : Move)
    (_h : s.move_is_legal mov = true) :
    s.next_state mov = s.apply_move mov := rfl

theorem next_state_eq_copy_apply_witness :
    BoardState.new.next_state ⟨1⟩ = BoardState.new.apply_move ⟨1⟩ :=
  next_state_eq_copy_apply BoardState.new ⟨1⟩ (by decide)

/-- C10: the all-zero move is always judged legal, and applying it
leaves both occupancy masks unchanged while flipping whose turn it is. -/
theorem move_zero_is_accepted_pass (s : BoardState) :
    s.move_is_legal ⟨0⟩ = true
    ∧ s.apply_move ⟨0⟩ = { s with to_move := s.to_move.other_player } := by
  constructor
  · simp [BoardState.move_is_legal]
  · unfold BoardState.apply_move BoardState.set_position BoardState.current_player_position
      BoardState.get_position BoardState.current_player
    cases hp : s.to_move <;> simp [hp]

lemma two_pow_and_eq_zero_iff (k u : Nat) : 2 ^ k &&& u = 0 ↔ u.testBit k = false := by
  constructor
  · intro h
    have h' := congrArg (fun n => n.testBit k) h
    simpa [Nat.testBit_and, Nat.testBit_two_pow_self] using h'
  · intro h
    apply Nat.eq_of_testBit_eq
    intro i
    simp only [Nat.testBit_and, Nat.zero_testBit, Nat.testBit_two_pow]
    by_cases hik : k = i
    · subst hik; simp [h]
    · simp [hik]

lemma move_is_legal_pow (s : BoardState) (k : Nat) :
    s.move_is_legal ⟨2 ^ k⟩ = !(s.player1 ||| s.player2).testBit k := by
  unfold BoardState.move_is_legal
  cases h : (s.player1 ||| s.player2).testBit k <;>
    simp [two_pow_and_eq_zero_iff, beq_eq_false_iff_ne, h]

lemma all_moves_eq : ALL_MOVES = (List.range 9).map (fun k => (⟨2 ^ k⟩ : Move)) := by
  decide

lemma filter_map_pow (s : BoardState) (ks : List Nat) :
    ((ks.map fun k => (⟨2 ^ k⟩ : Move)).filter fun c => s.move_is_legal c) =
      ks.filterMap
        (fun k => if (s.player1 ||| s.player2).testBit k then none else some ⟨2 ^ k⟩) := by
  induction ks with
  | nil => rfl
  | cons k ks ih =>
    simp only [List.map_cons, List.filter_cons, List.filterMap_cons, move_is_legal_pow]
    cases h : (s.player1 ||| s.player2).testBit k <;> simp [h, ih]

lemma legal_moves_eq_spec_aux (s : BoardState) : s.legal_moves = legalMovesSpec s := by
  unfold BoardState.legal_moves legalMovesSpec
  rw [all_moves_eq, filter_map_pow]

/-- C6: a single-bit candidate move is judged legal iff its bit is clear
in the bitwise OR of the two players' masks, and legal_moves returns
exactly the single-bit moves passing that check, ordered cell 0 through
cell 8. -/
theorem legal_move_enumeration (s : BoardState) :
    (∀ k, k < 9 →
      (s.move_is_legal ⟨2 ^ k⟩ = true ↔ (s.player1 ||| s.player2).testBit k = false))
    ∧ s.legal_moves = legalMovesSpec s := by
  refine ⟨fun k _ => ?_, legal_moves_eq_spec_aux s⟩
  rw [move_is_legal_pow]
  cases h : (s.player1 ||| s.player2).testBit k <;> simp

theorem legal_move_enumeration_witness :
    (BoardState.new.move_is_legal ⟨2 ^ 0⟩ = true
      ↔ (BoardState.new.player1 ||| BoardState.new.player2).testBit 0 = false)
    ∧ BoardState.new.legal_moves = legalMovesSpec BoardState.new :=
  ⟨(legal_move_enumeration BoardState.new).1 0 (by decide),
    (legal_move_enumeration BoardState.new).2⟩

lemma and_511_eq_iff (u : Nat) : u &&& 511 = 511 ↔ ∀ k, k < 9 → u.testBit k = true := by
  have h511 : ∀ i : Nat, (511 : Nat).testBit i = decide (i < 9) := by
    intro i
    have he : (511 : Nat) = 2 ^ 9 - 1 := by norm_num
    rw [he, Nat.testBit_two_pow_sub_one]
  constructor
  · intro h k hk
    have h' := congrArg (fun n => n.testBit k) h
    simp only [Nat.testBit_and, h511] at h'
    simpa [hk] using h'
  · intro h
    apply Nat.eq_of_testBit_eq
    intro i
    by_cases hi : i < 9
    · simp [Nat.testBit_and, h511, hi, h i hi]
    · simp [Nat.testBit_and, h511, hi]

/-- C1 counterexample: a state where player one has completed the top
row (game_result is a Win, hence terminal) but legal_moves is not empty,
refuting the claim that legal_moves is empty on every terminal state. -/
theorem legal_moves_terminal_counterexample :
    ({ player1 := 7, player2 := 0, to_move := Player.Two, player1_piece := Piece.X }
        : BoardState).game_result ≠ GameResult.Undetermined
    ∧ ({ player1 := 7, player2 := 0, to_move := Player.Two, player1_piece := Piece.X }
        : BoardState).legal_moves ≠ [] := by
  decide

/-- C1 amended: legal_moves ignores game_result; it returns the empty
sequence exactly when the union of the two occupancy masks covers all 9
cells (a full board), so it is empty on draw states but non-empty on won
states that still have free cells. -/
theorem legal_moves_empty_iff_board_full (s : BoardState) :
    s.legal_moves = [] ↔ (s.player1 ||| s.player2) &&& 511 = 511 := by
  rw [legal_moves_eq_spec_aux]
  unfold legalMovesSpec
  rw [List.filterMap_eq_nil_iff]
  constructor
  · intro h
    apply (and_511_eq_iff _).2
    intro k hk
    have hh := h k (List.mem_range.mpr hk)
    cases ht : (s.player1 ||| s.player2).testBit k
    · rw [ht] at hh; simp at hh
    · rfl
  · intro h k hk
    have ht := (and_511_eq_iff _).1 h k (List.mem_range.mp hk)
    simp [ht]

lemma mem_all_moves {m : Move} (hm : m ∈ ALL_MOVES) : ∃ k, k < 9 ∧ m.val = 2 ^ k := by
  simp only [ALL_MOVES, List.mem_cons, List.not_mem_nil, or_false] at hm
  rcases hm with h | h | h | h | h | h | h | h | h <;> subst h <;>
    first
      | exact ⟨0, by decide, by decide⟩
      | exact ⟨1, by decide, by decide⟩
      | exact ⟨2, by decide, by decide⟩
      | exact ⟨3, by decide, by decide⟩
      | exact ⟨4, by decide, by decide⟩
      | exact ⟨5, by decide, by decide⟩
      | exact ⟨6, by decide, by decide⟩
      | exact ⟨7, by decide, by decide⟩
      | exact ⟨8, by decide, by decide⟩

lemma apply_move_one (s : BoardState) (mov : Move) (h : s.to_move = Player.One) :
    s.apply_move mov = { s with player1 := s.player1 ||| mov.val, to_move := Player.Two } := by
  unfold BoardState.apply_move BoardState.set_position BoardState.current_player_position
    BoardState.get_position BoardState.current_player
  simp [h, Player.other_player]

lemma apply_move_two (s : BoardState) (mov : Move) (h : s.to_move = Player.Two) :
    s.apply_move mov = { s with player2 := s.player2 ||| mov.val, to_move := Player.One } := by
  unfold BoardState.apply_move BoardState.set_position BoardState.current_player_position
    BoardState.get_position BoardState.current_player
  simp [h, Player.other_player]

lemma two_pow_lt_512 {k : Nat} (hk : k < 9) : (2 : Nat) ^ k < 512 := by
  calc (2 : Nat) ^ k ≤ 2 ^ 8 := Nat.pow_le_pow_right (by norm_num) (by omega)
  _ < 512 := by norm_num

lemma or_pow_disjoint {a b : Nat} (k : Nat) (hd : a &&& b = 0)
    (hbit : b.testBit k = false) : (a ||| 2 ^ k) &&& b = 0 := by
  apply Nat.eq_of_testBit_eq
  intro i
  simp only [Nat.testBit_and, Nat.testBit_or, Nat.zero_testBit, Nat.testBit_two_pow]
  by_cases hik : k = i
  · subst hik; simp [hbit]
  · have hdi := congrArg (fun n => n.testBit i) hd
    simp only [Nat.testBit_and, Nat.zero_testBit] at hdi
    rcases Bool.and_eq_false_iff.mp hdi with hth | hth <;> simp [hik, hth]

lemma inv_preserved {s : BoardState} {m : Move} (hinv : BoardInv s)
    (hm : m ∈ s.legal_moves) : BoardInv (s.apply_move m) := by
  obtain ⟨hd, h1, h2⟩ := hinv
  have hm' : m ∈ ALL_MOVES ∧ s.move_is_legal m = true := by
    simpa [BoardState.legal_moves, List.mem_filter] using hm
  obtain ⟨k, hk, hval⟩ := mem_all_moves hm'.1
  have hz : m.val &&& (s.player1 ||| s.player2) = 0 := by
    have := hm'.2
    rw [BoardState.move_is_legal] at this
    simpa using this
  have hbit : (s.player1 ||| s.player2).testBit k = false := by
    rw [hval] at hz
    exact (two_pow_and_eq_zero_iff k _).1 hz
  have hbit1 : s.player1.testBit k = false := by
    have hb := hbit
    simp only [Nat.testBit_or, Bool.or_eq_false_iff] at hb
    exact hb.1
  have hbit2 : s.player2.testBit k = false := by
    have hb := hbit
    simp only [Nat.testBit_or, Bool.or_eq_false_iff] at hb
    exact hb.2
  have h512 : (512 : Nat) = 2 ^ 9 := by norm_num
  cases hp : s.to_move
  · rw [apply_move_one s m hp]
    refine ⟨?_, ?_, h2⟩
    · rw [hval]
      exact or_pow_disjoint k hd hbit2
    · rw [hval, h512]
      exact Nat.or_lt_two_pow (by rw [← h512]; exact h1) (by rw [← h512]; exact two_pow_lt_512 hk)
  · rw [apply_move_two s m hp]
    refine ⟨?_, h1, ?_⟩
    · rw [hval, Nat.and_comm]
      have := or_pow_disjoint k (by rw [Nat.and_comm] at hd; exact hd) hbit1
      exact this
    · rw [hval, h512]
      exact Nat.or_lt_two_pow (by rw [← h512]; exact h2) (by rw [← h512]; exact two_pow_lt_512 hk)

/-- C7: every state reachable from the initial state through the
engine's own legal_moves satisfies the invariant that the two occupancy
masks are disjoint and confined to the low 9 bits, and applying any
legal move preserves the invariant. -/
theorem reachable_states_invariant :
    (∀ s, Reachable s → BoardInv s)
    ∧ (∀ s (m : Move), BoardInv s → m ∈ s.legal_moves → BoardInv (s.apply_move m)) := by
  constructor
  · intro s hs
    induction hs with
    | init => exact ⟨rfl, by decide, by decide⟩
    | step hr hm ih => exact inv_preserved ih hm
  · intro s m hinv hm
    exact inv_preserved hinv hm

theorem reachable_states_invariant_witness :
    BoardInv BoardState.new ∧ BoardInv (BoardState.new.apply_move ⟨1⟩) :=
  ⟨reachable_states_invariant.1 BoardState.new Reachable.init,
    reachable_states_invariant.2 BoardState.new ⟨1⟩
      ⟨rfl, by decide, by decide⟩ (by decide)⟩

lemma last_player_is_winner_eq (s : BoardState) :
    s.last_player_is_winner = s.is_winner s.last_player := by
  unfold BoardState.last_player_is_winner BoardState.is_winner BoardState.last_player_position
  rw [any_and_comm]

lemma current_player_is_winner_eq (s : BoardState) :
    s.current_player_is_winner = s.is_winner s.current_player := by
  unfold BoardState.current_player_is_winner BoardState.is_winner
    BoardState.current_player_position
  rw [any_and_comm]

lemma is_winner_of_line {s : BoardState} {p : Player} {w : Nat}
    (hw : w ∈ WINNING_POSITIONS) (hp : s.get_position p = w) :
    s.is_winner p = true := by
  unfold BoardState.is_winner
  rw [List.any_eq_true]
  exact ⟨w, hw, by simp [hp]⟩

lemma get_winner_unique (s : BoardState) (p : Player)
    (hwin : s.is_winner p = true) (hlose : s.is_winner p.other_player = false) :
    s.get_winner = some p := by
  unfold BoardState.get_winner
  rw [last_player_is_winner_eq, current_player_is_winner_eq]
  unfold BoardState.last_player BoardState.current_player
  cases hp : s.to_move <;> cases p <;> simp_all [Player.other_player]

/-- C3: for each winning line, a state in which one player's mask is
exactly that line's three cells while the other player holds up to three
disjoint board cells that do not themselves contain a winning line is
reported as Win for the line's owner, regardless of whose turn it is. -/
theorem win_line_detected (s : BoardState) (p : Player) (w : Nat)
    (hw : w ∈ WINNING_POSITIONS)
    (hline : s.get_position p = w)
    (_hdisj : s.get_position p.other_player &&& w = 0)
    (_hbound : s.get_position p.other_player < 512)
    (_hcount : cellCount (s.get_position p.other_player) ≤ 3)
    (hnowin : s.is_winner p.other_player = false) :
    s.game_result = GameResult.Win p := by
  unfold BoardState.game_result
  rw [get_winner_unique s p (is_winner_of_line hw hline) hnowin]

theorem win_line_detected_witness :
    (7 ∈ WINNING_POSITIONS)
    ∧ ({ player1 := 7, player2 := 24, to_move := Player.Two, player1_piece := Piece.X }
        : BoardState).game_result = GameResult.Win Player.One :=
  ⟨by decide,
    win_line_detected
      { player1 := 7, player2 := 24, to_move := Player.Two, player1_piece := Piece.X }
      Player.One 7 (by decide) (by decide) (by decide) (by decide) (by decide) (by decide)⟩

/-- C3 counterexample: with player one exactly on the top row and player
two exactly on the middle row (three disjoint cells), the claim as
stated demands Win(player one), but with player two as the last mover
game_result reports Win(player two). -/
theorem win_line_detected_counterexample :
    (7 ∈ WINNING_POSITIONS)
    ∧ ((56 : Nat) &&& 7 = 0)
    ∧ cellCount 56 ≤ 3
    ∧ ({ player1 := 7, player2 := 56, to_move := Player.One, player1_piece := Piece.X }
        : BoardState).game_result = GameResult.Win Player.Two
    ∧ ({ player1 := 7, player2 := 56, to_move := Player.One, player1_piece := Piece.X }
        : BoardState).game_result ≠ GameResult.Win Player.One := by
  decide

/-- C8: with any strategy that returns no move on an undetermined state,
the driver loop of GamePlayer::play never exits: for every iteration
bound the fuelled model is still looping (it re-enters with the state
unchanged), contradicting the requirement to treat this as a terminal
condition. -/
theorem play_loops_forever_on_none :
    ∀ fuel, GamePlayer.play (fun _ => none) fuel BoardState.new = none := by
  have hnew : BoardState.new.game_result = GameResult.Undetermined := by decide
  intro fuel
  induction fuel with
  | zero => rfl
  | succ n ih =>
    rw [GamePlayer.play, hnew]
    exact ih

lemma find?_eq_head?_filter {α : Type} (p : α → Bool) (l : List α) :
    l.find? p = (l.filter p).head? := by
  induction l with
  | nil => rfl
  | cons a l ih =>
    by_cases h : p a
    · rw [List.find?_cons_of_pos _ h, List.filter_cons_of_pos h, List.head?_cons]
    · rw [List.find?_cons_of_neg _ h, List.filter_cons_of_neg h, ih]

lemma legal_move_bit {s : BoardState} {m : Move} (hm : m ∈ s.legal_moves) :
    ∃ k, k < 9 ∧ m.val = 2 ^ k ∧ (s.player1 ||| s.player2).testBit k = false := by
  have hm' : m ∈ ALL_MOVES ∧ s.move_is_legal m = true := by
    simpa [BoardState.legal_moves, List.mem_filter] using hm
  obtain ⟨k, hk, hval⟩ := mem_all_moves hm'.1
  refine ⟨k, hk, hval, ?_⟩
  have hz : m.val &&& (s.player1 ||| s.player2) = 0 := by
    have := hm'.2
    rw [BoardState.move_is_legal] at this
    simpa using this
  rw [hval] at hz
  exact (two_pow_and_eq_zero_iff k _).1 hz

lemma countP_or_pow (u k : Nat) (hu : u.testBit k = false) (l : List Nat)
    (hl : l.Nodup) (hkl : k ∈ l) :
    (l.countP fun j => !(u ||| 2 ^ k).testBit j) + 1 = l.countP fun j => !u.testBit j := by
  induction l with
  | nil => cases hkl
  | cons a l ih =>
    rcases List.mem_cons.mp hkl with rfl | hmem
    · have hnotin : k ∉ l := (List.nodup_cons.mp hl).1
      have hcount_eq : (l.countP fun j => !(u ||| 2 ^ k).testBit j)
          = l.countP fun j => !u.testBit j := by
        apply List.countP_congr
        intro j hj
        have hjk : k ≠ j := fun h => hnotin (h ▸ hj)
        simp [Nat.testBit_or, Nat.testBit_two_pow, hjk]
      rw [List.countP_cons, List.countP_cons, hcount_eq]
      simp [Nat.testBit_or, Nat.testBit_two_pow_self, hu]
    · have hl' := (List.nodup_cons.mp hl).2
      have hak : k ≠ a := fun h => (List.nodup_cons.mp hl).1 (h ▸ hmem)
      have hpa : (!(u ||| 2 ^ k).testBit a) = !u.testBit a := by
        simp [Nat.testBit_or, Nat.testBit_two_pow, hak]
      rw [List.countP_cons, List.countP_cons, hpa, ← ih hl' hmem]
      omega

lemma union_apply_move {s : BoardState} (m : Move) :
    (s.apply_move m).player1 ||| (s.apply_move m).player2
      = (s.player1 ||| s.player2) ||| m.val := by
  cases hp : s.to_move
  · rw [apply_move_one s m hp]
    show (s.player1 ||| m.val) ||| s.player2 = _
    rw [Nat.or_assoc, Nat.or_comm m.val s.player2, ← Nat.or_assoc]
  · rw [apply_move_two s m hp]
    show s.player1 ||| (s.player2 ||| m.val) = _
    rw [← Nat.or_assoc]

lemma freeCells_apply_move {s : BoardState} {m : Move} (hm : m ∈ s.legal_moves) :
    freeCells (s.apply_move m) + 1 = freeCells s := by
  obtain ⟨k, hk, hval, hbit⟩ := legal_move_bit hm
  unfold freeCells
  rw [union_apply_move, hval]
  exact countP_or_pow _ k hbit _ (List.nodup_range 9) (List.mem_range.mpr hk)

lemma undetermined_has_free_cell {s : BoardState}
    (h : s.game_result = GameResult.Undetermined) : 1 ≤ freeCells s := by
  have hdraw : s.is_draw = false := by
    unfold BoardState.game_result at h
    cases hgw : s.get_winner with
    | some w => rw [hgw] at h; cases h
    | none =>
      rw [hgw] at h
      cases hid : s.is_draw
      · rfl
      · rw [hid] at h; simp at h
  have hfull : ¬((s.player1 ||| s.player2) &&& 511 = 511) := by
    intro hc
    unfold BoardState.is_draw DRAW at hdraw
    simp [hc] at hdraw
  have hfree : ∃ j, j < 9 ∧ (s.player1 ||| s.player2).testBit j = false := by
    by_contra hc
    push_neg at hc
    apply hfull
    apply (and_511_eq_iff _).2
    intro j hj
    have := hc j hj
    cases hjj : (s.player1 ||| s.player2).testBit j
    · exact absurd hjj this
    · rfl
  obtain ⟨j, hj, hjb⟩ := hfree
  unfold freeCells
  have : 0 < (List.range 9).countP fun j => !(s.player1 ||| s.player2).testBit j :=
    List.countP_pos_iff.mpr ⟨j, List.mem_range.mpr hj, by simp [hjb]⟩
  omega

lemma mem_states_and_moves {s : BoardState} {fm : BoardState × Move}
    (h : fm ∈ s.states_and_moves) : fm.2 ∈ s.legal_moves ∧ fm.1 = s.next_state fm.2 := by
  unfold BoardState.states_and_moves at h
  simp only [List.mem_map] at h
  obtain ⟨mv, hmv, heq⟩ := h
  cases heq
  exact ⟨hmv, rfl⟩

lemma find?_states_and_moves (s : BoardState) :
    (s.states_and_moves.find? fun fm => fm.1.game_result == GameResult.Win s.current_player)
      = (winningMoves s).head?.map fun mv => (s.next_state mv, mv) := by
  unfold BoardState.states_and_moves winningMoves
  rw [List.find?_map, find?_eq_head?_filter]
  rfl

lemma choose_move_determined (fuel : Nat) (s : BoardState)
    (h : (s.game_result).is_determined = true) :
    TerminalStateStrategy.choose_move (fuel + 1) s = some (Except.ok none) := by
  rw [TerminalStateStrategy.choose_move, if_pos h]

lemma choose_move_winning (fuel : Nat) (s : BoardState) (mv : Move)
    (h : (s.game_result).is_determined = false)
    (hw : (winningMoves s).head? = some mv) :
    TerminalStateStrategy.choose_move (fuel + 1) s = some (Except.ok (some mv)) := by
  rw [TerminalStateStrategy.choose_move, if_neg (by simp [h]), find?_states_and_moves, hw]
  rfl

lemma loop2_ne_none (fuel : Nat) (l : List (BoardState × Move))
    (h : ∀ fm ∈ l, (fm.1.game_result).is_determined = false →
      TerminalStateStrategy.choose_move fuel fm.1 ≠ none) :
    TerminalStateStrategy.loop2 fuel l ≠ none := by
  induction l with
  | nil =>
    rw [TerminalStateStrategy.loop2]
    simp
  | cons fm rest ih =>
    rw [TerminalStateStrategy.loop2]
    by_cases hd : (fm.1.game_result).is_determined = true
    · rw [if_pos hd]
      exact ih fun x hx hxd => h x (List.mem_cons_of_mem _ hx) hxd
    · rw [if_neg hd]
      have hd' : (fm.1.game_result).is_determined = false := by
        cases hdd : (fm.1.game_result).is_determined
        · rfl
        · exact absurd hdd hd
      have hne := h fm (List.mem_cons_self _ _) hd'
      cases hcm : TerminalStateStrategy.choose_move fuel fm.1 with
      | none => exact absurd hcm hne
      | some x =>
        cases x with
        | error e =>
          cases e
          simp
        | ok r =>
          exact ih fun x hx hxd => h x (List.mem_cons_of_mem _ hx) hxd

lemma choose_move_panics :
    ∀ fuel (s : BoardState), (s.game_result).is_determined = false →
      winningMoves s = [] → freeCells s < fuel →
      TerminalStateStrategy.choose_move fuel s = some (Except.error ()) := by
  intro fuel
  induction fuel with
  | zero =>
    intro s _ _ hfc
    exact absurd hfc (Nat.not_lt_zero _)
  | succ n ih =>
    intro s hdet hwm hfc
    rw [TerminalStateStrategy.choose_move, if_neg (by simp [hdet]),
      find?_states_and_moves, hwm]
    simp only [List.head?_nil, Option.map_none']
    have hne : TerminalStateStrategy.loop2 n s.states_and_moves ≠ none := by
      apply loop2_ne_none
      intro fm hfm hfmdet
      obtain ⟨hmv, hfs⟩ := mem_states_and_moves hfm
      have hfree : freeCells fm.1 + 1 = freeCells s := by
        rw [hfs]
        exact freeCells_apply_move hmv
      have hfc' : freeCells fm.1 < n := by omega
      cases hwm' : winningMoves fm.1 with
      | nil =>
        rw [ih fm.1 hfmdet hwm' hfc']
        simp
      | cons mv rest =>
        obtain ⟨f, rfl⟩ : ∃ f, n = f + 1 := ⟨n - 1, by omega⟩
        rw [choose_move_winning f fm.1 mv hfmdet (by rw [hwm']; rfl)]
        simp
    cases hl2 : TerminalStateStrategy.loop2 n s.states_and_moves with
    | none => exact absurd hl2 hne
    | some x =>
      cases x with
      | error e =>
        cases e
        rfl
      | ok u =>
        cases u
        rfl

/-- C9: the fuelled model of TerminalStateStrategy::choose_move returns
no move exactly on determined states; on an undetermined state with an
immediately winning legal move it returns the first such move in
enumeration order; and in every remaining undetermined case it panics
(the hard abort of the todo-macro, propagated through the recursion)
rather than returning a move, provided the fuel exceeds the number of
free cells so that fuel exhaustion is never the reason. -/
theorem choose_move_spec :
    (∀ fuel (s : BoardState), (s.game_result).is_determined = true →
      TerminalStateStrategy.choose_move (fuel + 1) s = some (Except.ok none))
    ∧ (∀ fuel (s : BoardState) (mv : Move), (s.game_result).is_determined = false →
        (winningMoves s).head? = some mv →
        TerminalStateStrategy.choose_move (fuel + 1) s = some (Except.ok (some mv)))
    ∧ (∀ fuel (s : BoardState), (s.game_result).is_determined = false →
        winningMoves s = [] → freeCells s < fuel →
        TerminalStateStrategy.choose_move fuel s = some (Except.error ())) :=
  ⟨choose_move_determined, choose_move_winning, choose_move_panics⟩

theorem choose_move_spec_witness :
    TerminalStateStrategy.choose_move 1
        { player1 := 7, player2 := 24, to_move := Player.Two, player1_piece := Piece.X }
      = some (Except.ok none)
    ∧ TerminalStateStrategy.choose_move 1
        { player1 := 3, player2 := 24, to_move := Player.One, player1_piece := Piece.X }
      = some (Except.ok (some ⟨4⟩))
    ∧ TerminalStateStrategy.choose_move 2
        { player1 := 141, player2 := 114, to_move := Player.One, player1_piece := Piece.X }
      = some (Except.error ()) :=
  ⟨choose_move_spec.1 0 _ (by decide),
    choose_move_spec.2.1 0 _ ⟨4⟩ (by decide) (by decide),
    choose_move_spec.2.2 2 _ (by decide) (by decide) (by decide)⟩
